import Mathlib

/-!
Shallow embedding of `imrc` (src/src/lib.rs), a pyo3 binding over the
`im_rc` persistent collections: `HashMapPy` (wrapping `HashMap<Key, PyObject>`),
`HashSetPy` (wrapping `HashSet<Key>`), and `VectorPy` (wrapping `Vector<PyObject>`).

Keys are modelled by `Nat` (a well-behaved Python key whose delegated `__hash__`
and `__eq__` are total and agree with value equality), and Python object payloads
by `PV`, which has a distinguished `none` element because `HashMapPy.__richcmp__`
compares a payload against an `Option<&PyObject>` — pyo3 lowers `Option::None`
to the Python `None` object.

The `im_rc` collections are external library dependencies of the crate; they are
modelled extensionally by their documented persistent-map/set/vector semantics:
a `HashMap` is an association list with no duplicate keys, a `HashSet` a list
with no duplicate elements, and a `Vector` a list in front-to-back order.
`HashMap.update` / `HashSet.update` insert-or-replace, `without` removes the
binding for a key, and `Vector.push_front` / `pop_front` operate on the head.
-/

namespace Imrc

/-- A Python object payload: either the `None` object or an ordinary value
(modelled by a natural number tag). -/
inductive PV where
  | none
  | int (n : Nat)
deriving DecidableEq, Repr

/-- The Python-level errors surfaced by the binding: `PyKeyError`,
`PyIndexError`, and `PyTypeError` (the latter raised by `ob.iter()` on a
non-iterable). -/
inductive Err where
  | keyError
  | indexError
  | typeError
deriving DecidableEq, Repr

/-! ## HashMapPy (`HashMap<Key, PyObject>`) -/

/-- The contents of a `HashMap<Key, PyObject>`: an association list from keys
to payloads.  The no-duplicate-keys invariant of the real trie is carried as a
`List.Nodup` hypothesis on the key list where a proof needs it. -/
abbrev Mp := List (Nat × PV)

/-- Keys of the map, in iteration order (`HashMapPy::keys`). -/
def mkeys (m : Mp) : List Nat := m.map (·.1)

/-- `HashMap::get`: lookup of a key. -/
def mlookup (m : Mp) (k : Nat) : Option PV := List.lookup k m

/-- `HashMap::contains_key`, backing `HashMapPy::__contains__`. -/
def mcontains (m : Mp) (k : Nat) : Bool := (mlookup m k).isSome

/-- `HashMap::without`: the map with the binding for `k` removed. -/
def mwithout (m : Mp) (k : Nat) : Mp := m.filter (fun kv => kv.1 != k)

/-- `HashMap::update` (used by `HashMapPy::insert`): insert-or-replace. -/
def minsert (m : Mp) (k : Nat) (v : PV) : Mp :=
  if mcontains m k then m.map (fun kv => if kv.1 = k then (k, v) else kv)
  else (k, v) :: m

/-- `HashMapPy::insert`: returns a new map, the receiver untouched. -/
def mapInsertOp (m : Mp) (k : Nat) (v : PV) : Mp := minsert m k v

/-- `HashMapPy::remove`: path `contains_key` then `without`, else `PyKeyError`. -/
def mremove (m : Mp) (k : Nat) : Except Err Mp :=
  if mcontains m k then .ok (mwithout m k) else .error .keyError

/-- `HashMapPy::discard`: `without` when present, a clone of the receiver when
absent; both branches are `Ok`. -/
def mdiscard (m : Mp) (k : Nat) : Except Err Mp :=
  if mcontains m k then .ok (mwithout m k) else .ok m

/-- `HashMapPy::__getitem__`: `get`, else `PyKeyError`. -/
def mgetitem (m : Mp) (k : Nat) : Except Err PV :=
  match mlookup m k with
  | some v => .ok v
  | none => .error .keyError

/-- `HashMapPy::update`: fold every source map left-to-right into a copy of the
receiver via insert-or-replace. -/
def mupdate (m : Mp) (others : List Mp) : Mp :=
  others.foldl (fun acc o => o.foldl (fun a kv => minsert a kv.1 kv.2) acc) m

/-- pyo3 lowering of the `Option<&PyObject>` produced by `other.inner.get(&k1)`
in `HashMapPy::__richcmp__`: `Option::None` becomes the Python `None` object. -/
def pvOfOpt (o : Option PV) : PV := o.getD PV.none

/-- The `CompareOp::Eq` arm of `HashMapPy::__richcmp__`: equal lengths, and for
every entry `(k1, v1)` of the receiver, `v1 == other.get(k1)` where the lookup
result is lowered per `pvOfOpt`.  (Delegated equality is modelled as total here;
its failure behaviour is treated separately below.) -/
def mapRichcmpEq (a b : Mp) : Bool :=
  a.length == b.length && a.all (fun kv => kv.2 == pvOfOpt (mlookup b kv.1))

/-! ## HashSetPy (`HashSet<Key>`) -/

/-- The contents of a `HashSet<Key>`: a list of elements, no-duplicates carried
as a `List.Nodup` hypothesis where needed. -/
abbrev St := List Nat

/-- `HashSet::contains`. -/
def scontains (s : St) (x : Nat) : Bool := s.contains x

/-- `HashSet::insert` / `HashSet::update`: insert-or-replace; replacing an
equal element leaves the contents unchanged in this model. -/
def sinsert (s : St) (x : Nat) : St := if scontains s x then s else x :: s

/-- The in-place `HashSet::remove` used inside `difference` and
`symmetric_difference`: removes the element when present, a no-op otherwise. -/
def serase (s : St) (x : Nat) : St := s.erase x

/-- `HashSetPy::remove`: `contains` then `without`, else `PyKeyError`. -/
def setRemoveOp (s : St) (x : Nat) : Except Err St :=
  if scontains s x then .ok (serase s x) else .error .keyError

/-- `HashSetPy::discard`: `without` when present, clone of the receiver when
absent; both branches are `Ok`. -/
def setDiscardOp (s : St) (x : Nat) : Except Err St :=
  if scontains s x then .ok (serase s x) else .ok s

/-- `HashSetPy::difference`: clone the receiver, remove every element of the
other set from the clone. -/
def sdifference (a b : St) : St := b.foldl serase a

/-- Insertion loop shared by `union`: fold the iterated set's elements into the
base set. -/
def insAll (base it : St) : St := it.foldl sinsert base

/-- `HashSetPy::union`: the larger set is the base; the smaller set's elements
are inserted into a copy of it. -/
def sunion (a b : St) : St :=
  if a.length > b.length then insAll a b else insAll b a

/-- The loop of `HashSetPy::symmetric_difference`: for each iterated element,
remove it from the base when present, else insert it. -/
def symmFold (base it : St) : St :=
  it.foldl (fun acc v => if scontains acc v then serase acc v else sinsert acc v) base

/-- `HashSetPy::symmetric_difference`: the larger set is the base, the smaller
is iterated. -/
def ssymmdiff (a b : St) : St :=
  if a.length > b.length then symmFold a b else symmFold b a

/-- The loop of `HashSetPy::intersection`: scan the iterated (smaller) set,
keeping the elements contained in the larger one. -/
def interFold (larger it : St) : St :=
  it.foldl (fun acc v => if scontains larger v then sinsert acc v else acc) []

/-- `HashSetPy::intersection`: iterate the smaller set, retain elements of the
larger. -/
def sintersection (a b : St) : St :=
  if a.length > b.length then interFold a b else interFold b a

/-- `is_subset(one, two)`: every element of `one` is contained in `two`. -/
def isSubset (a b : St) : Bool := a.all (fun v => scontains b v)

/-- The `CompareOp::Eq` arm of `HashSetPy::__richcmp__`: equal lengths and
`is_subset`. -/
def setRichcmpEq (a b : St) : Bool := a.length == b.length && isSubset a b

/-- The `CompareOp::Le` arm of `HashSetPy::__richcmp__`: `is_subset` alone. -/
def setRichcmpLe (a b : St) : Bool := isSubset a b

/-- The `CompareOp::Lt` arm of `HashSetPy::__richcmp__`: strictly smaller
length and `is_subset`. -/
def setRichcmpLt (a b : St) : Bool :=
  decide (a.length < b.length) && isSubset a b

/-- `HashSetPy::update`: fold every iterable's elements into a copy of the
receiver via repeated insert. -/
def supdate (s : St) (iterables : List (List Nat)) : St :=
  iterables.foldl insAll s

/-! ## VectorPy (`Vector<PyObject>`) -/

/-- The contents of a `Vector<PyObject>`: its elements in front-to-back order. -/
abbrev Vc := List PV

/-- `VectorPy::first`: the front element, or `PyIndexError` when empty. -/
def firstV (v : Vc) : Except Err PV :=
  match v.head? with
  | some x => .ok x
  | Option.none => .error .indexError

/-- `VectorPy::push_front`: clone the receiver, push the value at the front. -/
def pushFront (v : Vc) (x : PV) : Vc := x :: v

/-- `VectorPy::rest`: clone the receiver, `pop_front` (a no-op on an empty
vector). -/
def restV (v : Vc) : Vc := v.tail

/-- `VectorPy::__reversed__`: push every element, in iteration order, at the
front of a fresh vector. -/
def reversedV (v : Vc) : Vc := v.foldl (fun acc x => x :: acc) []

/-- The `CompareOp::Eq` arm of `VectorPy::__richcmp__` with total delegated
equality: equal lengths and pairwise-equal elements of the zipped iterations. -/
def vecRichcmpEq (a b : Vc) : Bool :=
  a.length == b.length && (a.zip b).all (fun p => p.1 == p.2)

/-! ## Delegated equality failure (C2)

The delegated `__eq__` capability of a payload is fallible: calling it yields
either a boolean or a raised Python exception.  `EqCap` is such a capability.
The code handles its failure in two places:

* `impl PartialEq for Key` calls `__eq__` and `.expect("__eq__ failed!")`s the
  result — a failure aborts the process (a Rust panic), modelled by
  `KeyEqOutcome.panicked`;
* the `Eq`/`Ne` arms of `__richcmp__` map each elementwise comparison through
  `.unwrap_or(false)` (resp. `.unwrap_or(true)`), coercing a failure to a
  default truth value; the arm's overall result is an `Ok` boolean.
-/

/-- A fallible delegated equality capability (`__eq__` of a stored object). -/
def EqCap : Type := PV → PV → Except Err Bool

/-- Outcome of `impl PartialEq for Key`: either the boolean produced by the
delegated call, or a process abort (`expect` on a failed call). -/
inductive KeyEqOutcome where
  | val (b : Bool)
  | panicked
deriving DecidableEq, Repr

/-- `impl PartialEq for Key`: invoke `__eq__`, `expect` the result. -/
def keyEq (eq : EqCap) (a b : PV) : KeyEqOutcome :=
  match eq a b with
  | .ok v => .val v
  | .error _ => .panicked

/-- The `CompareOp::Eq` arm of `VectorPy::__richcmp__` with an explicit
capability: each elementwise `PyAny::eq` result is coerced by
`.unwrap_or(false)`; the arm returns `Ok` of the resulting boolean. -/
def vecRichcmpEqF (eq : EqCap) (a b : Vc) : Except Err Bool :=
  .ok (a.length == b.length &&
    (a.zip b).all (fun p => ((eq p.1 p.2).toOption.getD false)))

/-- The `CompareOp::Ne` arm of `VectorPy::__richcmp__` with an explicit
capability: elementwise `PyAny::ne` results are coerced by `.unwrap_or(true)`
and combined with `any`. -/
def vecRichcmpNeF (eq : EqCap) (a b : Vc) : Except Err Bool :=
  .ok (a.length != b.length ||
    (a.zip b).any (fun p => (((eq p.1 p.2).map (fun r => !r)).toOption.getD true)))

/-- A delegated equality capability whose every call raises. -/
def failEq : EqCap := fun _ _ => .error .typeError

/-! ## VectorPy construction (C8)

`VectorPy::init` receives the tuple of positional arguments.  Each argument is
a Python object that is either iterable (its `iter()` yields a list of
payloads) or not (`iter()` raises `PyTypeError`).
-/

/-- A positional argument to `Vector(...)`: a Python object that is either an
iterable yielding the objects `xs` in its iteration order, or a non-iterable
object (whose `iter()` raises `PyTypeError`). -/
inductive POb where
  | iterable (xs : List POb)
  | atom (n : Nat)

/-- `<VectorPy as FromPyObject>::extract`: iterate the object, collecting every
element (`each.extract::<PyObject>()` cannot fail); `ob.iter()` raises
`PyTypeError` on a non-iterable. -/
def vectorExtract : POb → Except Err (List POb)
  | .iterable xs => .ok xs
  | .atom _ => .error .typeError

/-- `VectorPy::init`: with exactly one positional argument, extract it as an
iterable (propagating its failure); otherwise (zero, or two or more arguments)
push every argument onto a fresh vector. -/
def vinit (elements : List POb) : Except Err (List POb) :=
  match elements with
  | [e] => vectorExtract e
  | es => .ok es

/-! ## Persistence (C1)

The host holds handles to collection values; a mutating call reads one handle's
value and produces a fresh handle, never writing through an existing one (every
`#[pymethods]` mutator takes `&self` and builds its result from `clone`/`update`
/`without` on the inner `im_rc` structure).  The store of live handles is a
list; `runOp` applies one mutating operation to the handle at index `i` and
appends the resulting new collection, leaving every existing slot in place.  A
failing operation (e.g. `remove` of an absent key) produces no new handle.
-/

/-- A collection handle's value: a map, a set, or a vector. -/
inductive Coll where
  | map (m : Mp)
  | set (s : St)
  | vec (v : Vc)
deriving DecidableEq, Repr

/-- The mutating operations of the three collections. -/
inductive MOp where
  | mapInsert (k : Nat) (v : PV)
  | mapRemove (k : Nat)
  | mapDiscard (k : Nat)
  | mapUpdate (others : List Mp)
  | setInsert (x : Nat)
  | setRemove (x : Nat)
  | setDiscard (x : Nat)
  | setUpdate (iterables : List (List Nat))
  | setUnion (other : St)
  | setIntersection (other : St)
  | setDifference (other : St)
  | setSymmetricDifference (other : St)
  | vecPushFront (x : PV)
  | vecRest
  | vecReversed
deriving DecidableEq, Repr

/-- Apply one mutating operation to one collection value, producing the new
collection it returns (`Option.none` when the call raises or the operation does
not apply to that collection kind). -/
def applyOp (c : Coll) (op : MOp) : Option Coll :=
  match c, op with
  | .map m, .mapInsert k v => some (.map (mapInsertOp m k v))
  | .map m, .mapRemove k => (mremove m k).toOption.map .map
  | .map m, .mapDiscard k => (mdiscard m k).toOption.map .map
  | .map m, .mapUpdate os => some (.map (mupdate m os))
  | .set s, .setInsert x => some (.set (sinsert s x))
  | .set s, .setRemove x => (setRemoveOp s x).toOption.map .set
  | .set s, .setDiscard x => (setDiscardOp s x).toOption.map .set
  | .set s, .setUpdate its => some (.set (supdate s its))
  | .set s, .setUnion o => some (.set (sunion s o))
  | .set s, .setIntersection o => some (.set (sintersection s o))
  | .set s, .setDifference o => some (.set (sdifference s o))
  | .set s, .setSymmetricDifference o => some (.set (ssymmdiff s o))
  | .vec v, .vecPushFront x => some (.vec (pushFront v x))
  | .vec v, .vecRest => some (.vec (restV v))
  | .vec v, .vecReversed => some (.vec (reversedV v))
  | _, _ => Option.none

/-- One step of the host: call `op` on the handle at index `i`; on success the
fresh collection is appended to the store of live handles. -/
def runOp (s : List Coll) (i : Nat) (op : MOp) : List Coll :=
  match s[i]?.bind (fun c => applyOp c op) with
  | some c' => s ++ [c']
  | Option.none => s

/-- The observations of a collection named by the persistence property: its
size, its membership/lookup function's graph, and its iteration contents.  All
three are determined by the collection value. -/
def obs (c : Coll) : Nat × Coll :=
  (match c with
   | .map m => m.length
   | .set s => s.length
   | .vec v => v.length, c)

/-! ## Helper lemmas -/

theorem scontains_iff {s : St} {x : Nat} : scontains s x = true ↔ x ∈ s := by
  simp [scontains]

theorem mem_sinsert {s : St} {x y : Nat} : x ∈ sinsert s y ↔ x = y ∨ x ∈ s := by
  unfold sinsert
  by_cases h : y ∈ s
  · simp [scontains_iff.2 h]
    intro hx
    subst hx
    exact h
  · rw [if_neg (by simp [scontains, h])]
    simp

theorem nodup_sinsert {s : St} {y : Nat} (h : s.Nodup) : (sinsert s y).Nodup := by
  unfold sinsert
  by_cases hy : y ∈ s
  · simpa [scontains_iff.2 hy] using h
  · rw [if_neg (by simp [scontains, hy])]
    exact List.Nodup.cons hy h

theorem mem_serase {s : St} (h : s.Nodup) {x y : Nat} :
    x ∈ serase s y ↔ x ≠ y ∧ x ∈ s := by
  unfold serase
  exact h.mem_erase_iff

theorem nodup_serase {s : St} (h : s.Nodup) {y : Nat} : (serase s y).Nodup :=
  h.erase y

theorem sdifference_spec (b a : St) (h : a.Nodup) :
    (sdifference a b).Nodup ∧ ∀ x, (x ∈ sdifference a b ↔ x ∈ a ∧ x ∉ b) := by
  induction b generalizing a with
  | nil => simpa [sdifference] using h
  | cons v t ih =>
    have step : sdifference a (v :: t) = sdifference (serase a v) t := rfl
    obtain ⟨hnd, hmem⟩ := ih (serase a v) (nodup_serase h)
    refine ⟨step ▸ hnd, fun x => ?_⟩
    rw [step, hmem x, mem_serase h]
    constructor
    · rintro ⟨⟨hne, hx⟩, ht⟩
      exact ⟨hx, by simp [hne, ht]⟩
    · rintro ⟨hx, hvt⟩
      simp only [List.mem_cons, not_or] at hvt
      exact ⟨⟨hvt.1, hx⟩, hvt.2⟩

theorem insAll_spec (it base : St) (h : base.Nodup) :
    (insAll base it).Nodup ∧ ∀ x, (x ∈ insAll base it ↔ x ∈ base ∨ x ∈ it) := by
  induction it generalizing base with
  | nil => simpa [insAll] using h
  | cons v t ih =>
    have step : insAll base (v :: t) = insAll (sinsert base v) t := rfl
    obtain ⟨hnd, hmem⟩ := ih (sinsert base v) (nodup_sinsert h)
    refine ⟨step ▸ hnd, fun x => ?_⟩
    rw [step, hmem x, mem_sinsert]
    simp
    tauto

theorem symmFold_spec (it base : St) (hb : base.Nodup) (hi : it.Nodup) :
    (symmFold base it).Nodup ∧
      ∀ x, (x ∈ symmFold base it ↔ ((x ∈ base) ↔ x ∉ it)) := by
  induction it generalizing base with
  | nil => simpa [symmFold] using hb
  | cons v t ih =>
    rw [List.nodup_cons] at hi
    set base' : St := if scontains base v then serase base v else sinsert base v with hbase'
    have step : symmFold base (v :: t) = symmFold base' t := rfl
    have hb' : base'.Nodup := by
      rw [hbase']
      split
      · exact nodup_serase hb
      · exact nodup_sinsert hb
    obtain ⟨hnd, hmem⟩ := ih base' hb' hi.2
    refine ⟨step ▸ hnd, fun x => ?_⟩
    rw [step, hmem x]
    have hxb' : x ∈ base' ↔ (if x = v then x ∉ base else x ∈ base) := by
      rw [hbase']
      by_cases hvb : v ∈ base
      · rw [if_pos (scontains_iff.2 hvb), mem_serase hb]
        by_cases hxv : x = v
        · subst hxv; simp [hvb]
        · simp [hxv]
      · rw [if_neg (by simp [scontains, hvb]), mem_sinsert]
        by_cases hxv : x = v
        · subst hxv; simp [hvb]
        · simp [hxv]
    by_cases hxv : x = v
    · subst hxv
      simp only [if_pos rfl] at hxb'
      simp [hxb', hi.1]
    · simp only [if_neg hxv] at hxb'
      simp [hxb', List.mem_cons, hxv]

theorem setRichcmpEq_of_ext {a b : St} (ha : a.Nodup) (hb : b.Nodup)
    (h : ∀ x, x ∈ a ↔ x ∈ b) : setRichcmpEq a b = true := by
  have hp : a.Perm b := (List.perm_ext_iff_of_nodup ha hb).2 h
  simp only [setRichcmpEq, Bool.and_eq_true, beq_iff_eq, isSubset, List.all_eq_true]
  exact ⟨hp.length_eq, fun x hx => scontains_iff.2 ((h x).1 hx)⟩

theorem zipSelfAll (s : Vc) : (s.zip s).all (fun p => p.1 == p.2) = true := by
  induction s with
  | nil => rfl
  | cons a t ih => simpa [List.zip_cons_cons] using ih

theorem mapRichcmpEq_iff (a b : Mp) :
    mapRichcmpEq a b = true ↔
      (a.length = b.length ∧ ∀ kv ∈ a, kv.2 = pvOfOpt (mlookup b kv.1)) := by
  simp [mapRichcmpEq, List.all_eq_true]

/-! ## Claims -/

/-- C1: for every collection handle store, calling any mutating operation
(`insert`, `remove`, `discard`, `update`, `union`, `intersection`,
`difference`, `symmetric_difference`, `push_front`, `rest`, `reversed`) on the
handle at index `i` returns a new collection appended to the store and changes
no observation (size, membership/lookup, iteration contents) of any existing
handle: every previously live slot holds the same collection value, hence the
same observations, after the call. -/
theorem C1_persistence (s : List Coll) (i : Nat) (op : MOp) (j : Nat)
    (h : j < s.length) :
    (runOp s i op)[j]? = s[j]? ∧
      ((runOp s i op)[j]?).map obs = (s[j]?).map obs := by
  have key : (runOp s i op)[j]? = s[j]? := by
    unfold runOp
    cases s[i]?.bind (fun c => applyOp c op) with
    | none => rfl
    | some c' => exact List.getElem?_append_left h
  exact ⟨key, by rw [key]⟩

theorem C1_persistence_witness :
    (runOp [Coll.map [(1, PV.int 2)]] 0 (MOp.mapInsert 3 (PV.int 4)))[0]? =
      [Coll.map [(1, PV.int 2)]][0]? :=
  (C1_persistence [Coll.map [(1, PV.int 2)]] 0 (MOp.mapInsert 3 (PV.int 4)) 0
    (by decide)).1

/-- C3: for a map `m` and key `k` absent from `m`, `m.remove(k)` raises
`KeyError` while `m.discard(k)` returns `Ok` of a map equal to `m`; likewise
for sets; and `discard` never raises on any input. -/
theorem C3_remove_discard (m : Mp) (s : St) (k x : Nat)
    (hm : mcontains m k = false) (hs : scontains s x = false) :
    mremove m k = .error .keyError ∧ mdiscard m k = .ok m ∧
    setRemoveOp s x = .error .keyError ∧ setDiscardOp s x = .ok s ∧
    (∀ (m' : Mp) (k' : Nat), (mdiscard m' k').isOk = true) ∧
    (∀ (s' : St) (x' : Nat), (setDiscardOp s' x').isOk = true) := by
  refine ⟨?_, ?_, ?_, ?_, ?_, ?_⟩
  · simp [mremove, hm]
  · simp [mdiscard, hm]
  · simp [setRemoveOp, hs]
  · simp [setDiscardOp, hs]
  · intro m' k'
    unfold mdiscard
    split <;> rfl
  · intro s' x'
    unfold setDiscardOp
    split <;> rfl

theorem C3_remove_discard_witness :
    mremove [(1, PV.int 7)] 2 = .error .keyError ∧
      mdiscard [(1, PV.int 7)] 2 = .ok [(1, PV.int 7)] :=
  ⟨(C3_remove_discard [(1, PV.int 7)] [1] 2 2 (by decide) (by decide)).1,
   (C3_remove_discard [(1, PV.int 7)] [1] 2 2 (by decide) (by decide)).2.1⟩

/-- C6: `a <= b` holds iff every element of `a` is contained in `b`, and
`a < b` holds iff `a <= b` holds and `len(a) < len(b)`. -/
theorem C6_subset_ordering (a b : St) :
    (setRichcmpLe a b = true ↔ ∀ x ∈ a, x ∈ b) ∧
    (setRichcmpLt a b = true ↔ setRichcmpLe a b = true ∧ a.length < b.length) := by
  constructor
  · simp [setRichcmpLe, isSubset, List.all_eq_true, scontains]
  · simp only [setRichcmpLt, setRichcmpLe, Bool.and_eq_true, decide_eq_true_eq]
    tauto

theorem C6_subset_ordering_witness :
    (setRichcmpLe [1, 2] [2, 1, 3] = true ↔ ∀ x ∈ ([1, 2] : St), x ∈ ([2, 1, 3] : St)) ∧
    (setRichcmpLt [1, 2] [2, 1, 3] = true ↔
      setRichcmpLe [1, 2] [2, 1, 3] = true ∧ ([1, 2] : St).length < ([2, 1, 3] : St).length) :=
  C6_subset_ordering [1, 2] [2, 1, 3]

/-- C7: for every non-empty sequence `s`, taking `s.rest` and pushing
`s.first` back at the front yields the original sequence again, both as the
same value and under the sequence `==` comparison. -/
theorem C7_rest_push_front (s : Vc) (h : s ≠ []) :
    ∃ x, firstV s = .ok x ∧ pushFront (restV s) x = s ∧
      vecRichcmpEq (pushFront (restV s) x) s = true := by
  match s with
  | a :: t =>
    refine ⟨a, rfl, rfl, ?_⟩
    simp only [vecRichcmpEq, Bool.and_eq_true, beq_iff_eq]
    exact ⟨rfl, zipSelfAll (a :: t)⟩

theorem C7_rest_push_front_witness :
    ∃ x, firstV [PV.int 1, PV.int 2] = .ok x ∧
      pushFront (restV [PV.int 1, PV.int 2]) x = [PV.int 1, PV.int 2] ∧
      vecRichcmpEq (pushFront (restV [PV.int 1, PV.int 2]) x) [PV.int 1, PV.int 2] = true :=
  C7_rest_push_front [PV.int 1, PV.int 2] (by decide)

/-- C9: `first` on an empty sequence raises `IndexError`; on a non-empty
sequence it returns the front element without raising. -/
theorem C9_first (s : Vc) :
    (s = [] → firstV s = .error .indexError) ∧
    (s ≠ [] → ∃ x, s.head? = some x ∧ firstV s = .ok x) := by
  constructor
  · rintro rfl
    rfl
  · intro h
    match s with
    | a :: t => exact ⟨a, rfl, rfl⟩

theorem C9_first_witness :
    firstV ([] : Vc) = .error .indexError ∧
      ∃ x, ([PV.int 3] : Vc).head? = some x ∧ firstV [PV.int 3] = .ok x :=
  ⟨(C9_first []).1 rfl, (C9_first [PV.int 3]).2 (by decide)⟩

/-- C10: `rest` of the empty sequence does not raise — its result type is a
plain sequence, and `pop_front` on an empty vector is a no-op, so the result is
the empty sequence. -/
theorem C10_rest_empty : restV ([] : Vc) = [] := rfl

/-- C2: evaluation of the code at an input whose delegated equality capability
fails.  The `Eq` arm of `__richcmp__` returns `Ok(false)` and the `Ne` arm
`Ok(true)` — the failure is coerced to a default truth value instead of
propagating — and `impl PartialEq for Key` (invoked during lookup, insert and
remove) aborts the process via `expect` instead of returning the failure. -/
theorem C2_swallowed_failure :
    vecRichcmpEqF failEq [PV.int 0] [PV.int 1] = .ok false ∧
    vecRichcmpNeF failEq [PV.int 0] [PV.int 1] = .ok true ∧
    keyEq failEq (PV.int 0) (PV.int 1) = .panicked :=
  ⟨rfl, rfl, rfl⟩

/-- C4 counterexample: the maps `{1: None}` and `{2: 5}` have equal length and
`==` between them returns `True`, yet the key `1` does not resolve in the
second map at all: `__richcmp__` compares the payload `None` against the
pyo3-lowered `Option::None`, so an absent key whose payload in `a` is the
`None` object counts as equal. -/
theorem C4_counterexample :
    ¬ (mapRichcmpEq [(1, PV.none)] [(2, PV.int 5)] = true ↔
       (([(1, PV.none)] : Mp).length = ([(2, PV.int 5)] : Mp).length ∧
        ∀ kv ∈ ([(1, PV.none)] : Mp), mlookup [(2, PV.int 5)] kv.1 = some kv.2)) := by
  decide

/-- C4 (amended): `a == b` returns `True` iff `len(a) == len(b)` and every
entry `(k, v)` of `a` satisfies: looking `k` up in `b`, with an absent key
reading as the payload `None`, yields a value delegate-equal to `v`; the
result is independent of `a`'s insertion order. -/
theorem C4_map_equality (a b : Mp) :
    (mapRichcmpEq a b = true ↔
      (a.length = b.length ∧ ∀ kv ∈ a, kv.2 = pvOfOpt (mlookup b kv.1))) ∧
    (∀ a' : Mp, a.Perm a' → mapRichcmpEq a b = mapRichcmpEq a' b) := by
  refine ⟨mapRichcmpEq_iff a b, fun a' hp => ?_⟩
  have h1 := mapRichcmpEq_iff a b
  have h2 := mapRichcmpEq_iff a' b
  have hlen := hp.length_eq
  have hmem : ∀ kv : Nat × PV, kv ∈ a ↔ kv ∈ a' := fun kv => hp.mem_iff
  by_cases hab : mapRichcmpEq a b = true
  · obtain ⟨hl, hall⟩ := h1.1 hab
    have hab' : mapRichcmpEq a' b = true :=
      h2.2 ⟨hlen.symm.trans hl, fun kv hkv => hall kv ((hmem kv).2 hkv)⟩
    rw [hab, hab']
  · have hab' : ¬ mapRichcmpEq a' b = true := fun hc =>
      hab (h1.2 ⟨hlen.trans (h2.1 hc).1, fun kv hkv => (h2.1 hc).2 kv ((hmem kv).1 hkv)⟩)
    rw [Bool.not_eq_true] at hab hab'
    rw [hab, hab']

theorem C4_map_equality_witness :
    mapRichcmpEq [(1, PV.int 2), (2, PV.int 3)] [(2, PV.int 3), (1, PV.int 2)] =
      mapRichcmpEq [(2, PV.int 3), (1, PV.int 2)] [(2, PV.int 3), (1, PV.int 2)] :=
  (C4_map_equality [(1, PV.int 2), (2, PV.int 3)] [(2, PV.int 3), (1, PV.int 2)]).2
    [(2, PV.int 3), (1, PV.int 2)] (List.Perm.swap _ _ _)

/-- C5: for nodup sets `a`, `b` (the invariant of every `HashSet`), the
symmetric difference compares equal — under the set `==` of `__richcmp__` —
to the union of the two one-sided differences, whichever of `a` and `b` is
larger (the implementation picks its base set by size in both
`symmetric_difference` and `union`). -/
theorem C5_symmetric_difference (a b : St) (ha : a.Nodup) (hb : b.Nodup) :
    setRichcmpEq (ssymmdiff a b) (sunion (sdifference a b) (sdifference b a)) = true := by
  obtain ⟨hd1n, hd1m⟩ := sdifference_spec b a ha
  obtain ⟨hd2n, hd2m⟩ := sdifference_spec a b hb
  have hsym : (ssymmdiff a b).Nodup ∧
      ∀ x, (x ∈ ssymmdiff a b ↔ ((x ∈ a) ↔ x ∉ b)) := by
    unfold ssymmdiff
    split
    · exact symmFold_spec b a ha hb
    · obtain ⟨hn, hm⟩ := symmFold_spec a b hb ha
      exact ⟨hn, fun x => by rw [hm x]; tauto⟩
  have hun : (sunion (sdifference a b) (sdifference b a)).Nodup ∧
      ∀ x, (x ∈ sunion (sdifference a b) (sdifference b a) ↔
        x ∈ sdifference a b ∨ x ∈ sdifference b a) := by
    unfold sunion
    split
    · exact insAll_spec (sdifference b a) (sdifference a b) hd1n
    · obtain ⟨hn, hm⟩ := insAll_spec (sdifference a b) (sdifference b a) hd2n
      exact ⟨hn, fun x => by rw [hm x]; tauto⟩
  apply setRichcmpEq_of_ext hsym.1 hun.1
  intro x
  rw [hsym.2 x, hun.2 x, hd1m x, hd2m x]
  tauto

theorem C5_symmetric_difference_witness :
    setRichcmpEq (ssymmdiff [1, 2, 3] [2, 3, 4])
      (sunion (sdifference [1, 2, 3] [2, 3, 4]) (sdifference [2, 3, 4] [1, 2, 3])) = true :=
  C5_symmetric_difference [1, 2, 3] [2, 3, 4] (by decide) (by decide)

/-- C8 counterexample: constructing a vector from the single non-iterable
positional argument `5` raises `PyTypeError` (the one-argument branch of
`init` extracts the argument via `ob.iter()`); it does not yield the
one-element sequence `[5]`. -/
theorem C8_counterexample :
    vinit [POb.atom 5] = .error .typeError ∧
      vinit [POb.atom 5] ≠ .ok [POb.atom 5] := by
  refine ⟨rfl, fun hcontra => ?_⟩
  rw [show vinit [POb.atom 5] = .error .typeError from rfl] at hcontra
  exact Except.noConfusion hcontra

/-- C8 (amended): constructing a vector from zero, or from two or more,
positional arguments yields exactly those arguments in order; with exactly one
argument, the argument is treated as an iterable and yields its elements in
iteration order, and a single non-iterable argument raises `PyTypeError`. -/
theorem C8_construction (elements : List POb) (h : elements.length ≠ 1) :
    vinit elements = .ok elements ∧
    (∀ xs : List POb, vinit [POb.iterable xs] = .ok xs) ∧
    (∀ n : Nat, vinit [POb.atom n] = .error .typeError) := by
  refine ⟨?_, fun xs => rfl, fun n => rfl⟩
  match elements with
  | [] => rfl
  | [e] => exact absurd rfl h
  | e1 :: e2 :: es => rfl

theorem C8_construction_witness :
    vinit [POb.atom 1, POb.atom 2] = .ok [POb.atom 1, POb.atom 2] :=
  (C8_construction [POb.atom 1, POb.atom 2] (by decide)).1

end Imrc
